import Mathlib

/-!
# Verification of `typing_arguments` (generic_arguments.py)

A shallow embedding of `src/typing_arguments/generic_arguments.py`.

The module provides `GenericArgumentsMixin`, whose `__class_getitem__`
captures the concrete types supplied when a generic class is
parameterized, storing them in a `__typing_arguments__` dict keyed by the
class's type variables, and `typing_arg`, a descriptor resolving one type
variable through that dict.

Python dicts are modelled as insertion-ordered association lists with
Python's semantics: lookup returns the (unique) binding, assignment
updates in place or appends, `{**d, **e}` folds the entries of `e` over
`d`, and `==` compares extensionally (same keys, same values).
-/

set_option autoImplicit false

namespace TypingArguments

/-- A type variable (`typing.TypeVar`): an opaque identity used as a dict key. -/
abbrev TVar := Nat

/-- A concrete runtime type supplied as a type argument (`str`, `int`, ...). -/
inductive Ty where
  | str
  | int
  | boolean
  | custom (n : Nat)
  deriving DecidableEq, Repr

/-- A Python dict from type variables to concrete types, as an
insertion-ordered association list with unique keys. -/
abbrev Dict := List (TVar × Ty)

/-- Python `d[k]` / `d.get(k)`: the value at the first (unique) occurrence of `k`. -/
def dictGet : Dict → TVar → Option Ty
  | [], _ => none
  | (k', v) :: d, k => if k' = k then some v else dictGet d k

/-- Python `d[k] = v`: overwrite in place if `k` is present, else append. -/
def dictSet : Dict → TVar → Ty → Dict
  | [], k, v => [(k, v)]
  | (k', v') :: d, k, v =>
      if k' = k then (k, v) :: d else (k', v') :: dictSet d k v

/-- Python `{**d, **e}` / `d.update(e)`: fold the entries of `e` over `d`. -/
def dictUpdate (d e : Dict) : Dict :=
  e.foldl (fun a kv => dictSet a kv.1 kv.2) d

/-- Python `dict(zip(ks, vs))`. -/
def dictOfZip (ks : List TVar) (vs : List Ty) : Dict :=
  dictUpdate [] (ks.zip vs)

/-- The keys of a dict, in insertion order. -/
def dictKeys (d : Dict) : List TVar :=
  d.map Prod.fst

/-- Python `d == e` on dicts: extensional equality (same keys, same values). -/
def dictBeq (d e : Dict) : Bool :=
  (dictKeys d).all (fun k => dictGet e k == dictGet d k) &&
  (dictKeys e).all (fun k => dictGet d k == dictGet e k)

/-- The unique-keys invariant every dict reachable by the library's
operations satisfies. -/
def DictNodup (d : Dict) : Prop :=
  (dictKeys d).Nodup

instance (d : Dict) : Decidable (DictNodup d) := by
  unfold DictNodup; infer_instance

/-- First-some choice on options, mirroring "overlay" lookup. -/
def optOr (a b : Option Ty) : Option Ty :=
  match a with
  | some v => some v
  | none => b

/-- A `TypeError` raised by the library, identified by its raise site. -/
inductive PyErr where
  | rootParams
  | nonGeneric
  | arity (clsName : String) (expected got : Nat)
  | noTypingAttr (clsName : String)
  | argNotFound (v : TVar) (clsName : String)
  deriving DecidableEq, Repr

/-- A Python class object, as `generic_arguments.py` observes one:
`isRoot` is the identity test `cls is GenericArgumentsMixin`,
`genericInBases` is `Generic in cls.__bases__`, `isPydantic` is
`issubclass(cls, BaseModel)`, `parameters` is `cls.__parameters__`, and
`typingArgs` is the attribute-lookup result for `__typing_arguments__`
(`none` when `hasattr` is false). -/
structure ClassObj where
  name : String
  isRoot : Bool
  genericInBases : Bool
  isPydantic : Bool
  parameters : List TVar
  typingArgs : Option Dict
  deriving DecidableEq, Repr

/-- Lines 197-201 of `__init_subclass__`: fold over `reversed(cls.__bases__)`,
each base's `__typing_arguments__` (when present) updating the accumulator. -/
def ancestorMerge (bases : List (Option Dict)) : Dict :=
  bases.reverse.foldl
    (fun acc b =>
      match b with
      | some d => dictUpdate acc d
      | none => acc)
    []

/-- `GenericArgumentsMixin.__init_subclass__` (lines 191-208): ensure the
attribute exists (empty when absent), merge the reversed bases, then
overlay the class's own resolved value. `own` is what `getattr(cls, ...)`
returns at line 198: the class body's entry, else the first base's. -/
def initSubclassArgs (own : Option Dict) (bases : List (Option Dict)) : Dict :=
  dictUpdate (ancestorMerge bases) (own.getD [])

/-- Creation of a class deriving (transitively) from the mixin — a `class`
statement or `types.new_class`. The body may put `__typing_arguments__`
directly in the namespace; otherwise attribute lookup falls through to the
bases in MRO order. `__init_subclass__` then runs and stores the merged
dict on the new class. -/
def mkSubclass (name : String) (gib pyd : Bool) (params : List TVar)
    (body : Option Dict) (baseMaps : List (Option Dict)) : ClassObj :=
  let own :=
    match body with
    | some d => some d
    | none => baseMaps.findSome? id
  { name := name, isRoot := false, genericInBases := gib, isPydantic := pyd,
    parameters := params,
    typingArgs := some (initSubclassArgs own baseMaps) }

/-- The argument of `__class_getitem__`: one type or a tuple of types. -/
inductive Params where
  | single (t : Ty)
  | tuple (ts : List Ty)
  deriving DecidableEq, Repr

/-- Normalization at lines 154-155: a lone type becomes a 1-tuple. -/
def Params.toList : Params → List Ty
  | .single t => [t]
  | .tuple ts => ts

/-- Python truthiness of `params`: a type object is truthy, a tuple is
truthy iff non-empty. -/
def Params.truthy : Params → Bool
  | .single _ => true
  | .tuple ts => !ts.isEmpty

/-- Modelled from the spec: `super().__class_getitem__(params)` at line 159
— "the underlying generic-parameterization mechanism" of pydantic/typing,
whose code is outside this repository. Per the spec it synthesizes a new
subtype of `cls`; creating that subtype runs the mixin's
`__init_subclass__` with no class-body bindings of its own, so the new
class inherits `cls`'s binding map. -/
def pydanticGetitem (cls : ClassObj) (_p : Params) : ClassObj :=
  mkSubclass (cls.name ++ "[...]") false true cls.parameters none [cls.typingArgs]

/-- The value `__class_getitem__` returns: for pydantic classes the
synthesized class itself (line 185), otherwise a `_GenericAlias` wrapper
around it carrying its own copy of the typing-arguments dict
(lines 187-189). -/
inductive GetitemValue where
  | pydCls (c : ClassObj)
  | aliasObj (c : ClassObj) (args : Dict) (origin : Params)
  deriving DecidableEq, Repr

/-- The synthesized `Typed<name>` class underlying the returned value. -/
def GetitemValue.typedCls : GetitemValue → ClassObj
  | .pydCls c => c
  | .aliasObj c _ _ => c

/-- The `__typing_arguments__` dict of the returned object. -/
def GetitemValue.args : GetitemValue → Dict
  | .pydCls c => c.typingArgs.getD []
  | .aliasObj _ a _ => a

/-- `GenericArgumentsMixin.__class_getitem__` (lines 135-189), without the
`lru_cache` decoration, which `cachedGetitem` models separately. -/
def classGetitemCore (cls : ClassObj) (p : Params) : Except PyErr GetitemValue :=
  if cls.isRoot && p.truthy then
    .error .rootParams
  else if !cls.genericInBases then
    .error .nonGeneric
  else
    let ps := p.toList
    let base_cls := if cls.isPydantic then pydanticGetitem cls p else cls
    if cls.parameters.length ≠ ps.length then
      .error (.arity cls.name cls.parameters.length ps.length)
    else
      let fresh := dictOfZip cls.parameters ps
      let merged :=
        match cls.typingArgs with
        | some d => dictUpdate d fresh
        | none => fresh
      let typedCls :=
        mkSubclass ("Typed" ++ cls.name) false cls.isPydantic cls.parameters
          (some merged) [base_cls.typingArgs]
      if cls.isPydantic then
        .ok (.pydCls typedCls)
      else
        .ok (.aliasObj typedCls merged p)

/-- `GenericArgumentsMixin` itself: `Generic` is not among its bases, it
declares no formal parameters, and it carries no `__typing_arguments__`. -/
def GenericArgumentsMixin : ClassObj :=
  { name := "GenericArgumentsMixin", isRoot := true, genericInBases := false,
    isPydantic := false, parameters := [], typingArgs := none }

/-- The `typing_arg` descriptor: references exactly one type variable. -/
structure TypingArg where
  type_argument : TVar
  deriving DecidableEq, Repr

/-- `typing_arg.__get__` (lines 217-235), with `obj_class` the requesting
class (for class-level access, the class itself). -/
def typingArgGet (acc : TypingArg) (objClass : ClassObj) : Except PyErr Ty :=
  match objClass.typingArgs with
  | none => .error (.noTypingAttr objClass.name)
  | some d =>
      match dictGet d acc.type_argument with
      | none => .error (.argNotFound acc.type_argument objClass.name)
      | some t => .ok t

/-- An instance, as far as the descriptor cares: it has a class. -/
structure PyInstance where
  cls : ClassObj
  deriving DecidableEq, Repr

/-- Instance-level accessor read: the descriptor protocol passes
`type(obj)` as `obj_class`, so resolution goes through the instance's
class. -/
def typingArgGetInstance (acc : TypingArg) (obj : PyInstance) : Except PyErr Ty :=
  typingArgGet acc obj.cls

/-- The runtime's store of class objects; ids are indices, and class
synthesis appends a fresh object. -/
structure Heap where
  objs : List ClassObj
  deriving Repr

def heapGet (h : Heap) (i : Nat) : Option ClassObj :=
  h.objs[i]?

/-- Heap-passing `__class_getitem__`: look the class up, run the capture
routine, and allocate the synthesized class as a fresh object. Returns
`none` only for a dangling class id. -/
def classGetitemAlloc (h : Heap) (cid : Nat) (p : Params) :
    Option (Except PyErr (Heap × Nat × GetitemValue)) :=
  match heapGet h cid with
  | none => none
  | some cls =>
      match classGetitemCore cls p with
      | .error e => some (.error e)
      | .ok r => some (.ok (⟨h.objs ++ [r.typedCls]⟩, h.objs.length, r))

/-- The `functools.lru_cache(maxsize=None, typed=True)` store of line 136:
argument key `(cls, params)` — `typed=True` keeps the single-type key
`G[C]` apart from the 1-tuple key `G[(C,)]` — mapped to the memoized
return value (heap id of the synthesized class plus the returned value).
Exceptions are never cached. -/
abbrev Cache := List ((Nat × Params) × (Nat × GetitemValue))

/-- `__class_getitem__` as decorated on line 136: a cache hit returns the
stored object, synthesizing nothing; a miss computes, allocates and
records. The final flag tells whether a fresh class was synthesized. -/
def cachedGetitem (h : Heap) (c : Cache) (cid : Nat) (p : Params) :
    Option (Except PyErr (Heap × Cache × Nat × GetitemValue × Bool)) :=
  match c.find? (fun e => decide (e.1 = (cid, p))) with
  | some e => some (.ok (h, c, e.2.1, e.2.2, false))
  | none =>
      match classGetitemAlloc h cid p with
      | none => none
      | some (.error er) => some (.error er)
      | some (.ok (h', nid, r)) =>
          some (.ok (h', ((cid, p), (nid, r)) :: c, nid, r, true))

/-- The binding map the spec promises for `G[C1,...,Cn]`: the pairwise
`{V1:C1, ..., Vn:Cn}` overlaid on whatever map the class already carries,
fresh bindings winning. -/
def specMergedArgs (cls : ClassObj) (p : Params) : Dict :=
  dictUpdate (cls.typingArgs.getD []) (dictOfZip cls.parameters p.toList)

/-- The value `classGetitemCore` returns when every precondition holds,
written out: the zip-merge, the synthesized `Typed<name>` class, and the
pydantic/alias split. -/
def coreOkValue (cls : ClassObj) (p : Params) : GetitemValue :=
  let fresh := dictOfZip cls.parameters p.toList
  let merged :=
    match cls.typingArgs with
    | some d => dictUpdate d fresh
    | none => fresh
  let base_cls := if cls.isPydantic then pydanticGetitem cls p else cls
  let typedCls :=
    mkSubclass ("Typed" ++ cls.name) false cls.isPydantic cls.parameters
      (some merged) [base_cls.typingArgs]
  if cls.isPydantic then .pydCls typedCls else .aliasObj typedCls merged p

/-- `class PlainGeneric(GenericArgumentsMixin, Generic[T1, T2])` with
`T1 = 0`, `T2 = 1`: bases are the mixin and `Generic`, neither of which
carries a binding map. -/
def examplePlainGeneric : ClassObj :=
  mkSubclass "PlainGeneric" true false [0, 1] none [none, none]

/-- `class NotGeneric(GenericArgumentsMixin)`: no `Generic` among the bases. -/
def exampleNotGeneric : ClassObj :=
  mkSubclass "NotGeneric" false false [] none [none]

/-- The parameter tuple `[str, int]`. -/
def exampleStrInt : Params :=
  Params.tuple [Ty.str, Ty.int]

/-- The class synthesized by `PlainGeneric[str, int]`. -/
def exampleTypedPlain : ClassObj :=
  mkSubclass "TypedPlainGeneric" false false [0, 1]
    (some [(0, Ty.str), (1, Ty.int)]) [examplePlainGeneric.typingArgs]

/-- The alias object returned by `PlainGeneric[str, int]`. -/
def exampleAliasValue : GetitemValue :=
  GetitemValue.aliasObj exampleTypedPlain [(0, Ty.str), (1, Ty.int)] exampleStrInt

/-- A heap holding only `PlainGeneric`, at id 0. -/
def exampleHeap : Heap :=
  ⟨[examplePlainGeneric]⟩

/-- The heap after evaluating `PlainGeneric[str, int]` once. -/
def exampleHeap1 : Heap :=
  ⟨[examplePlainGeneric, exampleTypedPlain]⟩

/-- The memo cache after evaluating `PlainGeneric[str, int]` once. -/
def exampleCache1 : Cache :=
  [((0, exampleStrInt), (1, exampleAliasValue))]
@[simp] theorem dictGet_nil (k : TVar) : dictGet [] k = none := rfl

theorem dictGet_cons (k' : TVar) (v : Ty) (d : Dict) (k : TVar) :
    dictGet ((k', v) :: d) k = if k' = k then some v else dictGet d k := rfl

@[simp] theorem dictKeys_nil : dictKeys [] = [] := rfl

@[simp] theorem dictKeys_cons (k : TVar) (v : Ty) (d : Dict) :
    dictKeys ((k, v) :: d) = k :: dictKeys d := rfl

theorem dictSet_cons_same (k : TVar) (v₀ : Ty) (d : Dict) (v : Ty) :
    dictSet ((k, v₀) :: d) k v = (k, v) :: d := by
  simp [dictSet]

theorem dictSet_cons_ne (k₀ : TVar) (v₀ : Ty) (d : Dict) (k : TVar) (v : Ty)
    (h : k₀ ≠ k) : dictSet ((k₀, v₀) :: d) k v = (k₀, v₀) :: dictSet d k v := by
  simp [dictSet, h]

@[simp] theorem dictGet_set (d : Dict) (k : TVar) (v : Ty) (k' : TVar) :
    dictGet (dictSet d k v) k' = if k' = k then some v else dictGet d k' := by
  induction d with
  | nil =>
      show dictGet [(k, v)] k' = _
      rw [dictGet_cons]
      by_cases h : k = k'
      · simp [h]
      · simp [h, Ne.symm h]
  | cons kv d ih =>
      obtain ⟨k₀, v₀⟩ := kv
      by_cases h : k₀ = k
      · subst h
        rw [dictSet_cons_same, dictGet_cons, dictGet_cons]
        by_cases h' : k₀ = k'
        · subst h'; simp
        · simp [h', Ne.symm h']
      · rw [dictSet_cons_ne _ _ _ _ _ h, dictGet_cons, dictGet_cons, ih]
        by_cases h₁ : k₀ = k'
        · subst h₁
          simp [h]
        · simp [h₁]

theorem dictKeys_set (d : Dict) (k : TVar) (v : Ty) :
    dictKeys (dictSet d k v) =
      if k ∈ dictKeys d then dictKeys d else dictKeys d ++ [k] := by
  induction d with
  | nil => simp [dictSet]
  | cons kv d ih =>
      obtain ⟨k₀, v₀⟩ := kv
      by_cases h : k₀ = k
      · subst h
        rw [dictSet_cons_same]
        simp
      · rw [dictSet_cons_ne _ _ _ _ _ h]
        by_cases hm : k ∈ dictKeys d
        · simp [hm, ih, Ne.symm h]
        · simp [hm, ih, Ne.symm h]

theorem dictNodup_set (d : Dict) (k : TVar) (v : Ty) (h : DictNodup d) :
    DictNodup (dictSet d k v) := by
  unfold DictNodup at *
  rw [dictKeys_set]
  by_cases hm : k ∈ dictKeys d
  · simpa [hm]
  · simp only [hm, if_false]
    simpa [List.nodup_append] using ⟨h, hm⟩

theorem dictNodup_foldl_set (l : List (TVar × Ty)) :
    ∀ d : Dict, DictNodup d →
      DictNodup (l.foldl (fun a kv => dictSet a kv.1 kv.2) d) := by
  induction l with
  | nil => intro d h; simpa using h
  | cons kv l ih =>
      intro d h
      simpa using ih (dictSet d kv.1 kv.2) (dictNodup_set d kv.1 kv.2 h)

theorem dictNodup_update (d e : Dict) (h : DictNodup d) :
    DictNodup (dictUpdate d e) :=
  dictNodup_foldl_set e d h

theorem dictNodup_nil : DictNodup [] := by
  simp [DictNodup]

theorem dictNodup_ofZip (ks : List TVar) (vs : List Ty) :
    DictNodup (dictOfZip ks vs) :=
  dictNodup_update [] (ks.zip vs) dictNodup_nil

theorem mem_dictKeys_of_mem (d : Dict) (k : TVar) (v : Ty) (h : (k, v) ∈ d) :
    k ∈ dictKeys d := by
  unfold dictKeys
  exact List.mem_map.mpr ⟨(k, v), h, rfl⟩

theorem dictGet_eq_none_of_not_mem (d : Dict) (k : TVar)
    (h : k ∉ dictKeys d) : dictGet d k = none := by
  induction d with
  | nil => rfl
  | cons kv d ih =>
      obtain ⟨k₀, v₀⟩ := kv
      rw [dictGet_cons]
      simp only [dictKeys_cons, List.mem_cons] at h
      push_neg at h
      have hne : ¬ (k₀ = k) := fun hh => h.1 hh.symm
      rw [if_neg hne, ih h.2]

theorem dictGet_isSome_of_mem (d : Dict) (k : TVar)
    (h : k ∈ dictKeys d) : (dictGet d k).isSome := by
  induction d with
  | nil => simp at h
  | cons kv d ih =>
      obtain ⟨k₀, v₀⟩ := kv
      rw [dictGet_cons]
      by_cases hk : k₀ = k
      · simp [hk]
      · simp only [dictKeys_cons, List.mem_cons] at h
        rcases h with h | h
        · exact absurd h.symm hk
        · simp [hk, ih h]

theorem dictGet_mem (d : Dict) (k : TVar) (v : Ty)
    (hd : DictNodup d) (h : (k, v) ∈ d) : dictGet d k = some v := by
  induction d with
  | nil => simp at h
  | cons kv d ih =>
      obtain ⟨k₀, v₀⟩ := kv
      have hnd : DictNodup d := by
        unfold DictNodup at hd ⊢
        simp only [dictKeys_cons, List.nodup_cons] at hd
        exact hd.2
      have hk₀ : k₀ ∉ dictKeys d := by
        unfold DictNodup at hd
        simp only [dictKeys_cons, List.nodup_cons] at hd
        exact hd.1
      rw [dictGet_cons]
      rcases List.mem_cons.mp h with h1 | h1
      · simp only [Prod.mk.injEq] at h1
        obtain ⟨h2, h3⟩ := h1
        subst h2; subst h3
        simp
      · have hne : ¬ (k₀ = k) := by
          intro hh
          apply hk₀
          rw [hh]
          exact mem_dictKeys_of_mem d k v h1
        rw [if_neg hne, ih hnd h1]

@[simp] theorem optOr_some (v : Ty) (b : Option Ty) : optOr (some v) b = some v := rfl

@[simp] theorem optOr_none (b : Option Ty) : optOr none b = b := rfl

@[simp] theorem dictUpdate_nil (d : Dict) : dictUpdate d [] = d := rfl

theorem dictUpdate_cons (d : Dict) (k : TVar) (v : Ty) (e : Dict) :
    dictUpdate d ((k, v) :: e) = dictUpdate (dictSet d k v) e := rfl

theorem dictGet_foldl_set_of_not_mem (l : List (TVar × Ty)) (k : TVar)
    (h : ∀ kv ∈ l, kv.1 ≠ k) :
    ∀ d : Dict, dictGet (l.foldl (fun a kv => dictSet a kv.1 kv.2) d) k = dictGet d k := by
  induction l with
  | nil => intro d; rfl
  | cons kv l ih =>
      intro d
      have h1 : kv.1 ≠ k := h kv (List.mem_cons_self kv l)
      have h2 : ∀ kv' ∈ l, kv'.1 ≠ k := fun kv' hm => h kv' (List.mem_cons_of_mem kv hm)
      calc dictGet ((l.foldl (fun a kv => dictSet a kv.1 kv.2) (dictSet d kv.1 kv.2))) k
          = dictGet (dictSet d kv.1 kv.2) k := ih h2 (dictSet d kv.1 kv.2)
        _ = dictGet d k := by rw [dictGet_set, if_neg (fun hh => h1 hh.symm)]

theorem dictGet_update (d e : Dict) (he : DictNodup e) (k : TVar) :
    dictGet (dictUpdate d e) k = optOr (dictGet e k) (dictGet d k) := by
  induction e generalizing d with
  | nil => simp
  | cons kv e ih =>
      obtain ⟨k₀, v₀⟩ := kv
      have hk₀ : k₀ ∉ dictKeys e := by
        unfold DictNodup at he
        simp only [dictKeys_cons, List.nodup_cons] at he
        exact he.1
      have hnd : DictNodup e := by
        unfold DictNodup at he ⊢
        simp only [dictKeys_cons, List.nodup_cons] at he
        exact he.2
      rw [dictUpdate_cons, ih (dictSet d k₀ v₀) hnd, dictGet_cons]
      by_cases hk : k₀ = k
      · subst hk
        rw [dictGet_eq_none_of_not_mem e k₀ hk₀]
        simp
      · rw [dictGet_set, if_neg (fun hh => hk hh.symm), if_neg hk]

theorem dictBeq_iff (d e : Dict) :
    dictBeq d e = true ↔ ∀ k, dictGet d k = dictGet e k := by
  constructor
  · intro h k
    unfold dictBeq at h
    rw [Bool.and_eq_true, List.all_eq_true, List.all_eq_true] at h
    by_cases hd : k ∈ dictKeys d
    · exact (eq_of_beq (h.1 k hd)).symm
    · by_cases he : k ∈ dictKeys e
      · exact eq_of_beq (h.2 k he)
      · rw [dictGet_eq_none_of_not_mem d k hd, dictGet_eq_none_of_not_mem e k he]
  · intro h
    unfold dictBeq
    rw [Bool.and_eq_true, List.all_eq_true, List.all_eq_true]
    constructor
    · intro k _; rw [h k]; exact beq_self_eq_true (dictGet e k)
    · intro k _; rw [h k]; exact beq_self_eq_true (dictGet e k)

theorem dictBeq_refl (d : Dict) : dictBeq d d = true :=
  (dictBeq_iff d d).mpr (fun _ => rfl)

theorem dictSet_eq_self (d : Dict) (k : TVar) (v : Ty)
    (h : dictGet d k = some v) : dictSet d k v = d := by
  induction d with
  | nil => simp at h
  | cons kv d ih =>
      obtain ⟨k₀, v₀⟩ := kv
      rw [dictGet_cons] at h
      by_cases hk : k₀ = k
      · rw [if_pos hk] at h
        obtain rfl : v₀ = v := Option.some.inj h
        subst hk
        rw [dictSet_cons_same]
      · rw [if_neg hk] at h
        rw [dictSet_cons_ne _ _ _ _ _ hk, ih h]

theorem dictUpdate_eq_self (d e : Dict)
    (h : ∀ kv ∈ e, dictGet d kv.1 = some kv.2) : dictUpdate d e = d := by
  induction e with
  | nil => rfl
  | cons kv e ih =>
      rw [dictUpdate_cons,
        dictSet_eq_self d kv.1 kv.2 (h kv (List.mem_cons_self kv e))]
      exact ih (fun kv' hm => h kv' (List.mem_cons_of_mem kv hm))

theorem dictUpdate_self (d : Dict) (hd : DictNodup d) : dictUpdate d d = d :=
  dictUpdate_eq_self d d (fun kv hm => dictGet_mem d kv.1 kv.2 hd (by simpa using hm))

theorem foldl_set_cons_of_not_mem (e : List (TVar × Ty)) (k : TVar) (v : Ty)
    (h : ∀ kv ∈ e, kv.1 ≠ k) :
    ∀ d : Dict, e.foldl (fun a kv => dictSet a kv.1 kv.2) ((k, v) :: d) =
      (k, v) :: e.foldl (fun a kv => dictSet a kv.1 kv.2) d := by
  induction e with
  | nil => intro d; rfl
  | cons kv e ih =>
      intro d
      have h1 : k ≠ kv.1 :=
        fun hh => h kv (List.mem_cons_self kv e) hh.symm
      have h2 : ∀ kv' ∈ e, kv'.1 ≠ k := fun kv' hm => h kv' (List.mem_cons_of_mem kv hm)
      simp only [List.foldl_cons]
      rw [show dictSet ((k, v) :: d) kv.1 kv.2 = (k, v) :: dictSet d kv.1 kv.2 from
        dictSet_cons_ne _ _ _ _ _ h1]
      exact ih h2 (dictSet d kv.1 kv.2)

theorem dictUpdate_nil_left (e : Dict) (he : DictNodup e) : dictUpdate [] e = e := by
  induction e with
  | nil => rfl
  | cons kv e ih =>
      obtain ⟨k₀, v₀⟩ := kv
      have hk₀ : k₀ ∉ dictKeys e := by
        unfold DictNodup at he
        simp only [dictKeys_cons, List.nodup_cons] at he
        exact he.1
      have hnd : DictNodup e := by
        unfold DictNodup at he ⊢
        simp only [dictKeys_cons, List.nodup_cons] at he
        exact he.2
      have hne : ∀ kv ∈ e, kv.1 ≠ k₀ := by
        intro kv hm hh
        exact hk₀ (hh ▸ mem_dictKeys_of_mem e kv.1 kv.2 hm)
      rw [dictUpdate_cons]
      show e.foldl (fun a kv => dictSet a kv.1 kv.2) [(k₀, v₀)] = (k₀, v₀) :: e
      rw [foldl_set_cons_of_not_mem e k₀ v₀ hne []]
      exact congrArg _ (ih hnd)

theorem dictGet_foldl_set_mem (l : List (TVar × Ty)) (k : TVar) (v : Ty)
    (hnd : (l.map Prod.fst).Nodup) (hm : (k, v) ∈ l) :
    ∀ d : Dict, dictGet (l.foldl (fun a kv => dictSet a kv.1 kv.2) d) k = some v := by
  induction l with
  | nil => simp at hm
  | cons kv l ih =>
      intro d
      obtain ⟨k₀, v₀⟩ := kv
      simp only [List.map_cons, List.nodup_cons] at hnd
      simp only [List.foldl_cons]
      rcases List.mem_cons.mp hm with h1 | h1
      · simp only [Prod.mk.injEq] at h1
        obtain ⟨rfl, rfl⟩ := h1
        have hnm : ∀ kv ∈ l, kv.1 ≠ k := by
          intro kv hmem hh
          exact hnd.1 (hh ▸ List.mem_map.mpr ⟨kv, hmem, rfl⟩)
        rw [dictGet_foldl_set_of_not_mem l k hnm, dictGet_set, if_pos rfl]
      · exact ih hnd.2 h1 (dictSet d k₀ v₀)

theorem dictGet_ofZip_getElem (ks : List TVar) (vs : List Ty)
    (hnd : ks.Nodup) (hlen : ks.length = vs.length)
    (i : Nat) (hi : i < ks.length) :
    dictGet (dictOfZip ks vs) ks[i] = some vs[i] := by
  have hz : i < (ks.zip vs).length := by
    simp [List.length_zip]; omega
  have hmem : (ks[i], vs[i]) ∈ ks.zip vs := by
    have : (ks.zip vs)[i] = (ks[i], vs[i]) := List.getElem_zip
    rw [← this]
    exact List.getElem_mem hz
  have hfst : ((ks.zip vs).map Prod.fst).Nodup := by
    rw [List.map_fst_zip ks vs (le_of_eq hlen)]
    exact hnd
  exact dictGet_foldl_set_mem (ks.zip vs) ks[i] vs[i] hfst hmem []

theorem dictGet_ofZip_of_not_mem (ks : List TVar) (vs : List Ty) (k : TVar)
    (h : k ∉ ks) : dictGet (dictOfZip ks vs) k = none := by
  have hnm : ∀ kv ∈ ks.zip vs, kv.1 ≠ k := by
    intro kv hm hh
    exact h (hh ▸ (List.of_mem_zip hm).1)
  unfold dictOfZip dictUpdate
  rw [dictGet_foldl_set_of_not_mem (ks.zip vs) k hnm []]
  rfl


theorem ancestorMerge_nil : ancestorMerge [] = [] := rfl

theorem ancestorMerge_cons (b : Option Dict) (bs : List (Option Dict)) :
    ancestorMerge (b :: bs) =
      match b with
      | some d => dictUpdate (ancestorMerge bs) d
      | none => ancestorMerge bs := by
  unfold ancestorMerge
  rw [List.reverse_cons, List.foldl_append]
  cases b <;> simp

theorem ancestorMerge_replicate_none (m : Nat) :
    ancestorMerge (List.replicate m none) = [] := by
  induction m with
  | zero => rfl
  | succ n ih =>
      rw [List.replicate_succ, ancestorMerge_cons]
      exact ih

theorem findSome_id_replicate_none (m : Nat) :
    (List.replicate m (none : Option Dict)).findSome? id = none := by
  induction m with
  | zero => rfl
  | succ n ih =>
      rw [List.replicate_succ, List.findSome?_cons]
      exact ih

theorem initSubclassArgs_single_parent (p : Dict) (hp : DictNodup p) :
    initSubclassArgs (some p) [some p] = p := by
  unfold initSubclassArgs
  rw [ancestorMerge_cons]
  show dictUpdate (dictUpdate (ancestorMerge []) p) p = p
  rw [ancestorMerge_nil, dictUpdate_nil_left p hp, dictUpdate_self p hp]

theorem initSubclassArgs_inherit (t : Option Dict) (ht : DictNodup (t.getD [])) :
    initSubclassArgs t [t] = t.getD [] := by
  cases t with
  | none => rfl
  | some d => exact initSubclassArgs_single_parent d ht

theorem merged_eq_update (t : Option Dict) (fresh : Dict) (hf : DictNodup fresh) :
    (match t with
     | some d => dictUpdate d fresh
     | none => fresh) = dictUpdate (t.getD []) fresh := by
  cases t with
  | none => exact (dictUpdate_nil_left fresh hf).symm
  | some d => rfl

theorem classGetitemCore_ok (cls : ClassObj) (p : Params)
    (hroot : cls.isRoot = false) (hgib : cls.genericInBases = true)
    (hlen : cls.parameters.length = p.toList.length) :
    classGetitemCore cls p = .ok (coreOkValue cls p) := by
  unfold classGetitemCore coreOkValue
  rw [hroot, hgib]
  simp [hlen]
  cases hpyd : cls.isPydantic <;> simp [hpyd]

theorem findSome_id_singleton (t : Option Dict) : [t].findSome? id = t := by
  cases t <;> rfl

theorem coreOkValue_args (cls : ClassObj) (p : Params)
    (hnd : DictNodup (cls.typingArgs.getD [])) (k : TVar) :
    dictGet (coreOkValue cls p).args k = dictGet (specMergedArgs cls p) k := by
  have hfr : DictNodup (dictOfZip cls.parameters p.toList) :=
    dictNodup_ofZip cls.parameters p.toList
  have hmg :
      (match cls.typingArgs with
       | some d => dictUpdate d (dictOfZip cls.parameters p.toList)
       | none => dictOfZip cls.parameters p.toList) = specMergedArgs cls p :=
    merged_eq_update cls.typingArgs (dictOfZip cls.parameters p.toList) hfr
  cases hpyd : cls.isPydantic with
  | false =>
      unfold coreOkValue
      rw [hpyd]
      simp only [Bool.false_eq_true, if_false, GetitemValue.args]
      rw [hmg]
  | true =>
      have hbase : (pydanticGetitem cls p).typingArgs = some (cls.typingArgs.getD []) := by
        unfold pydanticGetitem mkSubclass
        simp only [findSome_id_singleton]
        rw [initSubclassArgs_inherit cls.typingArgs hnd]
      unfold coreOkValue
      rw [hpyd]
      simp only [if_true, GetitemValue.args, mkSubclass, hbase, Option.getD_some]
      rw [hmg]
      unfold initSubclassArgs
      rw [ancestorMerge_cons, ancestorMerge_nil]
      show dictGet
        (dictUpdate (dictUpdate [] (cls.typingArgs.getD [])) (specMergedArgs cls p)) k = _
      rw [dictUpdate_nil_left _ hnd]
      have hmnd : DictNodup (specMergedArgs cls p) := by
        unfold specMergedArgs
        exact dictNodup_update _ _ hnd
      rw [dictGet_update _ _ hmnd k]
      unfold specMergedArgs
      rw [dictGet_update _ _ hfr k]
      cases h1 : dictGet (dictOfZip cls.parameters p.toList) k <;>
        cases h2 : dictGet (cls.typingArgs.getD []) k <;> simp

/-- Claim C1: for a generic class `G` declared with formal type variables
`V1..Vn` and concrete types `C1..Cn`, `G[C1,...,Cn].__typing_arguments__`
equals the pairwise map `{V1:C1,...,Vn:Cn}` overlaid on any binding map
`G` already carries from ancestors, the fresh pairwise bindings taking
precedence on key collision; pointwise, each formal variable resolves to
its supplied concrete type. -/
theorem parameterization_binding_map (cls : ClassObj) (p : Params)
    (hroot : cls.isRoot = false) (hgib : cls.genericInBases = true)
    (hnd : DictNodup (cls.typingArgs.getD []))
    (hlen : cls.parameters.length = p.toList.length) :
    ∃ r, classGetitemCore cls p = .ok r ∧
      dictBeq r.args (specMergedArgs cls p) = true ∧
      (cls.parameters.Nodup →
        ∀ i, (hi : i < cls.parameters.length) →
          dictGet r.args cls.parameters[i] = some p.toList[i]) := by
  refine ⟨coreOkValue cls p, classGetitemCore_ok cls p hroot hgib hlen, ?_, ?_⟩
  · exact (dictBeq_iff _ _).mpr (fun k => coreOkValue_args cls p hnd k)
  · intro hnodup i hi
    rw [coreOkValue_args cls p hnd]
    unfold specMergedArgs
    rw [dictGet_update _ _ (dictNodup_ofZip cls.parameters p.toList) _,
      dictGet_ofZip_getElem cls.parameters p.toList hnodup hlen i hi]
    rfl

/-- Witness for C1: `PlainGeneric[str, int]` carries `{T1: str, T2: int}`. -/
theorem parameterization_binding_map_witness :
    ∃ r, classGetitemCore examplePlainGeneric exampleStrInt = .ok r ∧
      dictBeq r.args (specMergedArgs examplePlainGeneric exampleStrInt) = true ∧
      (examplePlainGeneric.parameters.Nodup →
        ∀ i, (hi : i < examplePlainGeneric.parameters.length) →
          dictGet r.args examplePlainGeneric.parameters[i] =
            some exampleStrInt.toList[i]) :=
  parameterization_binding_map examplePlainGeneric exampleStrInt rfl rfl
    (by decide) (by decide)

/-- Claim C2: repeated parameterization with the identical `(class, params)`
key returns the very same memoized object — the heap gains no second
synthesized class, the cache is unchanged, and the returned ids and value
are those of the first call (`lru_cache` with `typed=True` keying). -/
theorem parameterization_memoized (h : Heap) (c : Cache) (cid : Nat) (p : Params)
    (h2 : Heap) (c2 : Cache) (nid : Nat) (r : GetitemValue)
    (hfirst : cachedGetitem h c cid p = some (.ok (h2, c2, nid, r, true))) :
    cachedGetitem h2 c2 cid p = some (.ok (h2, c2, nid, r, false)) := by
  unfold cachedGetitem at hfirst ⊢
  cases hfind : c.find? (fun e => decide (e.1 = (cid, p))) with
  | some e =>
      rw [hfind] at hfirst
      simp at hfirst
  | none =>
      rw [hfind] at hfirst
      cases halloc : classGetitemAlloc h cid p with
      | none =>
          rw [halloc] at hfirst
          simp at hfirst
      | some res =>
          cases res with
          | error er =>
              rw [halloc] at hfirst
              simp at hfirst
          | ok trip =>
              obtain ⟨hp2, nid2, r2⟩ := trip
              rw [halloc] at hfirst
              simp only [Option.some.injEq, Except.ok.injEq, Prod.mk.injEq] at hfirst
              obtain ⟨hh, hc, hn, hr, -⟩ := hfirst
              subst hh; subst hn; subst hr
              rw [← hc]
              rw [List.find?_cons_of_pos _ (by simp)]

/-- Witness for C2: after `PlainGeneric[str, int]` once, the second call
returns the very same alias object and synthesizes nothing. -/
theorem parameterization_memoized_witness :
    cachedGetitem exampleHeap1 exampleCache1 0 exampleStrInt =
      some (.ok (exampleHeap1, exampleCache1, 1, exampleAliasValue, false)) :=
  parameterization_memoized exampleHeap [] 0 exampleStrInt
    exampleHeap1 exampleCache1 1 exampleAliasValue rfl

/-- Claim C3 counterexample: with direct bases `[B1, B2]` where `B1` binds
variable `0` to `str` and `B2` binds it to `int`, the merged ancestor map
(and the registered class's final map) binds `0` to the EARLIER base's
`str`, not to `int` as the claim's "later base takes precedence" predicts. -/
theorem later_base_precedence_counterexample :
    ancestorMerge [some [(0, Ty.str)], some [(0, Ty.int)]] = [(0, Ty.str)] ∧
    dictGet (ancestorMerge [some [(0, Ty.str)], some [(0, Ty.int)]]) 0 ≠ some Ty.int ∧
    (mkSubclass "C" false false [] none
        [some [(0, Ty.str)], some [(0, Ty.int)]]).typingArgs = some [(0, Ty.str)] := by
  decide

/-- Claim C3 (amended): subclass registration folds the direct bases in
reverse declaration order, each base's binding map overlaying the running
merge — with the consequence that on a key bound by two or more direct
bases, the binding of the base declared EARLIER in the bases list takes
precedence: the merged map resolves every key through the first declared
base that binds it. -/
theorem ancestor_merge_earliest_precedence (bases : List (Option Dict))
    (hnd : ∀ d, some d ∈ bases → DictNodup d) (k : TVar) :
    dictGet (ancestorMerge bases) k =
      (bases.filterMap (fun b => b.bind (fun d => dictGet d k))).head? := by
  induction bases with
  | nil => rfl
  | cons b bs ih =>
      have hnd2 : ∀ d, some d ∈ bs → DictNodup d :=
        fun d hm => hnd d (List.mem_cons_of_mem b hm)
      rw [ancestorMerge_cons]
      cases b with
      | none => simpa using ih hnd2
      | some d =>
          have hd : DictNodup d := hnd d (List.mem_cons_self _ _)
          show dictGet (dictUpdate (ancestorMerge bs) d) k = _
          rw [dictGet_update _ _ hd k, List.filterMap_cons]
          cases hgd : dictGet d k with
          | none => simpa [hgd] using ih hnd2
          | some v => simp [hgd]

/-- Witness for amended C3: two bases binding variable `0` differently;
lookup through the merge matches first-declared-base resolution. -/
theorem ancestor_merge_earliest_precedence_witness :
    dictGet (ancestorMerge [some [(0, Ty.str)], some [(0, Ty.int)]]) 0 =
      ([some [(0, Ty.str)], some [(0, Ty.int)]].filterMap
        (fun b => b.bind (fun d => dictGet d 0))).head? :=
  ancestor_merge_earliest_precedence [some [(0, Ty.str)], some [(0, Ty.int)]]
    (by
      intro d hm
      simp only [List.mem_cons, List.not_mem_nil, or_false, Option.some.injEq] at hm
      rcases hm with rfl | rfl <;> decide)
    0

theorem dictNodup_ancestorMerge (bases : List (Option Dict)) :
    DictNodup (ancestorMerge bases) := by
  induction bases with
  | nil => exact dictNodup_nil
  | cons b bs ih =>
      rw [ancestorMerge_cons]
      cases b with
      | none => exact ih
      | some d => exact dictNodup_update _ d ih

/-- Claim C4: a new subclass's final binding map is the ancestor merge
overlaid by its own bindings, own bindings winning; consequently a
subclass declared without re-parameterization carries its parent's full
map, a grandchild still carries it, and a class over two parameterized
bases resolves every variable through `Base1`'s map first and `Base2`'s
otherwise (for disjoint maps, their union), which propagates to its own
subclasses. -/
theorem subclass_binding_map_inheritance
    (n1 n2 n3 n4 : String) (g y : Bool) (ps : List TVar)
    (own p b1 b2 : Dict)
    (hown : DictNodup own) (hp : DictNodup p)
    (h1 : DictNodup b1) (h2 : DictNodup b2) :
    (∀ bases k, dictGet (initSubclassArgs (some own) bases) k =
        optOr (dictGet own k) (dictGet (ancestorMerge bases) k)) ∧
    (mkSubclass n1 g y ps none [some p]).typingArgs = some p ∧
    (mkSubclass n2 g y ps none
        [(mkSubclass n1 g y ps none [some p]).typingArgs]).typingArgs = some p ∧
    (∀ k, dictGet ((mkSubclass n3 g y ps none [some b1, some b2]).typingArgs.getD []) k =
        optOr (dictGet b1 k) (dictGet b2 k)) ∧
    (∀ k, dictGet ((mkSubclass n4 g y ps none
          [(mkSubclass n3 g y ps none [some b1, some b2]).typingArgs]).typingArgs.getD []) k =
        optOr (dictGet b1 k) (dictGet b2 k)) := by
  have hpart1 : ∀ (n : String) (q : Dict), DictNodup q →
      (mkSubclass n g y ps none [some q]).typingArgs = some q :=
    fun n q hq => congrArg some (initSubclassArgs_single_parent q hq)
  have hpart0 : ∀ bases k, dictGet (initSubclassArgs (some own) bases) k =
      optOr (dictGet own k) (dictGet (ancestorMerge bases) k) := by
    intro bases k
    unfold initSubclassArgs
    simp only [Option.getD_some]
    rw [dictGet_update _ _ hown k]
  have hpart3core : ∀ k,
      dictGet (initSubclassArgs (some b1) [some b1, some b2]) k =
        optOr (dictGet b1 k) (dictGet b2 k) := by
    intro k
    show dictGet (dictUpdate (dictUpdate (dictUpdate [] b2) b1) b1) k = _
    rw [dictUpdate_nil_left b2 h2]
    rw [dictGet_update _ _ h1 k, dictGet_update _ _ h1 k]
    cases hb1 : dictGet b1 k <;> simp
  have e3 : (mkSubclass n3 g y ps none [some b1, some b2]).typingArgs
      = some (initSubclassArgs (some b1) [some b1, some b2]) := rfl
  have hD3 : DictNodup (initSubclassArgs (some b1) [some b1, some b2]) := by
    unfold initSubclassArgs
    exact dictNodup_update _ _ (dictNodup_ancestorMerge [some b1, some b2])
  refine ⟨hpart0, hpart1 n1 p hp, ?_, ?_, ?_⟩
  · rw [hpart1 n1 p hp]
    exact hpart1 n2 p hp
  · intro k
    rw [e3]
    simp only [Option.getD_some]
    exact hpart3core k
  · intro k
    rw [e3, hpart1 n4 (initSubclassArgs (some b1) [some b1, some b2]) hD3]
    simp only [Option.getD_some]
    exact hpart3core k

/-- Witness for C4: parent map `{T1: str, T2: int}`, bases `Base1[str]`,
`Base2[int]` as in the repository's multi-base test. -/
theorem subclass_binding_map_inheritance_witness :
    (∀ bases k, dictGet (initSubclassArgs (some [(5, Ty.boolean)]) bases) k =
        optOr (dictGet [(5, Ty.boolean)] k) (dictGet (ancestorMerge bases) k)) ∧
    (mkSubclass "PlainGenericChild" false false [] none
        [some [(0, Ty.str), (1, Ty.int)]]).typingArgs = some [(0, Ty.str), (1, Ty.int)] ∧
    (mkSubclass "PlainGenericGrandChild" false false [] none
        [(mkSubclass "PlainGenericChild" false false [] none
            [some [(0, Ty.str), (1, Ty.int)]]).typingArgs]).typingArgs =
      some [(0, Ty.str), (1, Ty.int)] ∧
    (∀ k, dictGet ((mkSubclass "MultiBaseGeneric" false false [] none
          [some [(0, Ty.str)], some [(1, Ty.int)]]).typingArgs.getD []) k =
        optOr (dictGet [(0, Ty.str)] k) (dictGet [(1, Ty.int)] k)) ∧
    (∀ k, dictGet ((mkSubclass "MultiBaseGenericChild" false false [] none
          [(mkSubclass "MultiBaseGeneric" false false [] none
              [some [(0, Ty.str)], some [(1, Ty.int)]]).typingArgs]).typingArgs.getD []) k =
        optOr (dictGet [(0, Ty.str)] k) (dictGet [(1, Ty.int)] k)) :=
  subclass_binding_map_inheritance "PlainGenericChild" "PlainGenericGrandChild"
    "MultiBaseGeneric" "MultiBaseGenericChild" false false []
    [(5, Ty.boolean)] [(0, Ty.str), (1, Ty.int)] [(0, Ty.str)] [(1, Ty.int)]
    (by decide) (by decide) (by decide) (by decide)

/-- Claim C5: reading a `typing_arg` accessor through a class (or through
an instance, which resolves to the instance's class) raises a type error
when the class has no binding-map attribute, raises a type error when the
map exists but lacks the accessor's variable, and otherwise returns
exactly the bound concrete type. -/
theorem typing_arg_get_spec (acc : TypingArg) (c : ClassObj) (obj : PyInstance) :
    (c.typingArgs = none → typingArgGet acc c = .error (.noTypingAttr c.name)) ∧
    (∀ d, c.typingArgs = some d → dictGet d acc.type_argument = none →
        typingArgGet acc c = .error (.argNotFound acc.type_argument c.name)) ∧
    (∀ d t, c.typingArgs = some d → dictGet d acc.type_argument = some t →
        typingArgGet acc c = .ok t) ∧
    typingArgGetInstance acc obj = typingArgGet acc obj.cls := by
  refine ⟨?_, ?_, ?_, rfl⟩
  · intro h
    simp [typingArgGet, h]
  · intro d h hg
    simp [typingArgGet, h, hg]
  · intro d t h hg
    simp [typingArgGet, h, hg]

/-- Witness for C5: the three outcomes on concrete classes, and
instance-level access agreeing with class-level access. -/
theorem typing_arg_get_spec_witness :
    typingArgGet ⟨0⟩ exampleTypedPlain = .ok Ty.str ∧
    typingArgGet ⟨0⟩ examplePlainGeneric = .error (.argNotFound 0 "PlainGeneric") ∧
    typingArgGet ⟨0⟩ GenericArgumentsMixin = .error (.noTypingAttr "GenericArgumentsMixin") ∧
    typingArgGetInstance ⟨0⟩ ⟨exampleTypedPlain⟩ = typingArgGet ⟨0⟩ exampleTypedPlain := by
  refine ⟨?_, ?_, ?_, ?_⟩
  · exact (typing_arg_get_spec ⟨0⟩ exampleTypedPlain ⟨exampleTypedPlain⟩).2.2.1 _ _ rfl rfl
  · exact (typing_arg_get_spec ⟨0⟩ examplePlainGeneric ⟨examplePlainGeneric⟩).2.1 _ rfl rfl
  · exact (typing_arg_get_spec ⟨0⟩ GenericArgumentsMixin ⟨GenericArgumentsMixin⟩).1 rfl
  · exact (typing_arg_get_spec ⟨0⟩ exampleTypedPlain ⟨exampleTypedPlain⟩).2.2.2

/-- Claim C6: parameterizing a generic class (a non-root class with
`Generic` among its direct bases) with a number of concrete types
different from its number of formal parameters raises the arity
`TypeError`. -/
theorem arity_mismatch_raises (cls : ClassObj) (p : Params)
    (hroot : cls.isRoot = false) (hgib : cls.genericInBases = true)
    (hm : cls.parameters.length ≠ p.toList.length) :
    classGetitemCore cls p =
      .error (.arity cls.name cls.parameters.length p.toList.length) := by
  unfold classGetitemCore
  rw [hroot, hgib]
  simp [hm]

/-- Witness for C6: `PlainGeneric[str]` — 2 formals, 1 argument. -/
theorem arity_mismatch_raises_witness :
    classGetitemCore examplePlainGeneric (Params.single Ty.str) =
      .error (.arity "PlainGeneric" 2 1) :=
  arity_mismatch_raises examplePlainGeneric (Params.single Ty.str) rfl rfl (by decide)

/-- Claim C7: indexing `GenericArgumentsMixin` itself with any truthy
(non-empty) parameters raises the dedicated `TypeError`. -/
theorem root_parameterization_raises (p : Params) (ht : p.truthy = true) :
    classGetitemCore GenericArgumentsMixin p = .error .rootParams := by
  unfold classGetitemCore
  simp [GenericArgumentsMixin, ht]

/-- Witness for C7: `GenericArgumentsMixin[str, int]`. -/
theorem root_parameterization_raises_witness :
    classGetitemCore GenericArgumentsMixin exampleStrInt = .error .rootParams :=
  root_parameterization_raises exampleStrInt rfl

/-- Claim C8: parameterizing any class whose direct bases do not include
`typing.Generic` raises a `TypeError`, whatever the supplied types — the
non-generic error normally, the root error when the class is the mixin
itself with truthy parameters. -/
theorem non_generic_raises (cls : ClassObj) (p : Params)
    (hgib : cls.genericInBases = false) :
    classGetitemCore cls p = .error .nonGeneric ∨
      classGetitemCore cls p = .error .rootParams := by
  unfold classGetitemCore
  cases hr : (cls.isRoot && p.truthy) with
  | true =>
      right
      simp [hr]
  | false =>
      left
      simp [hr, hgib]

/-- Witness for C8: `NotGeneric[str, int]`. -/
theorem non_generic_raises_witness :
    classGetitemCore exampleNotGeneric exampleStrInt = .error .nonGeneric ∨
      classGetitemCore exampleNotGeneric exampleStrInt = .error .rootParams :=
  non_generic_raises exampleNotGeneric exampleStrInt rfl

/-- Claim C9: evaluating `G[C1,...,Cn]` never mutates `G` — every
pre-existing heap object (in particular `G` and its binding map) is
untouched; the merged bindings live on a freshly allocated synthesized
class, a distinct object from `G`. -/
theorem parameterization_no_mutation (h : Heap) (cid : Nat) (p : Params)
    (cls : ClassObj) (hc : heapGet h cid = some cls)
    (h2 : Heap) (nid : Nat) (r : GetitemValue)
    (hok : classGetitemAlloc h cid p = some (.ok (h2, nid, r))) :
    heapGet h2 cid = some cls ∧ nid ≠ cid ∧ heapGet h2 nid = some r.typedCls ∧
      ∀ j, j < h.objs.length → heapGet h2 j = heapGet h j := by
  have hlt : cid < h.objs.length := by
    by_contra hge
    unfold heapGet at hc
    rw [List.getElem?_eq_none (by omega)] at hc
    exact Option.noConfusion hc
  unfold classGetitemAlloc at hok
  rw [hc] at hok
  have hok2 : (match classGetitemCore cls p with
      | Except.error e => some (Except.error e)
      | Except.ok r0 =>
          some (Except.ok (⟨h.objs ++ [r0.typedCls]⟩, h.objs.length, r0))) =
      some (Except.ok (h2, nid, r)) := hok
  cases hcore : classGetitemCore cls p with
  | error e =>
      rw [hcore] at hok2
      simp at hok2
  | ok r0 =>
      rw [hcore] at hok2
      simp only [Option.some.injEq, Except.ok.injEq, Prod.mk.injEq] at hok2
      obtain ⟨hh2, hnid, hr⟩ := hok2
      subst hh2; subst hnid; subst hr
      refine ⟨?_, by omega, ?_, ?_⟩
      · unfold heapGet at hc ⊢
        rw [List.getElem?_append_left hlt]
        exact hc
      · unfold heapGet
        exact List.getElem?_concat_length h.objs r0.typedCls
      · intro j hj
        unfold heapGet
        rw [List.getElem?_append_left hj]

/-- Witness for C9: `PlainGeneric[str, int]` on a one-class heap leaves
`PlainGeneric` at id 0 untouched and allocates the typed class at id 1. -/
theorem parameterization_no_mutation_witness :
    heapGet exampleHeap1 0 = some examplePlainGeneric ∧ 1 ≠ 0 ∧
      heapGet exampleHeap1 1 = some exampleAliasValue.typedCls ∧
      ∀ j, j < exampleHeap.objs.length → heapGet exampleHeap1 j = heapGet exampleHeap j :=
  parameterization_no_mutation exampleHeap 0 exampleStrInt examplePlainGeneric rfl
    exampleHeap1 1 exampleAliasValue rfl

/-- Claim C10: every class built by the mixin's subclass hook owns a
`__typing_arguments__` attribute from creation (the empty dict when no
bindings were captured), so the accessor's no-attribute error branch is
unreachable on such classes; reading an accessor on an unparameterized
subclass fails through the unbound-variable branch instead. -/
theorem subclass_attribute_invariant (n : String) (g y : Bool) (ps : List TVar)
    (body : Option Dict) (bases : List (Option Dict)) (acc : TypingArg) (m : Nat) :
    (mkSubclass n g y ps body bases).typingArgs.isSome = true ∧
    (∀ s, typingArgGet acc (mkSubclass n g y ps body bases) ≠
      .error (.noTypingAttr s)) ∧
    (mkSubclass n g y ps none (List.replicate m none)).typingArgs = some [] ∧
    typingArgGet acc (mkSubclass n g y ps none (List.replicate m none)) =
      .error (.argNotFound acc.type_argument n) := by
  have hempty : (mkSubclass n g y ps none (List.replicate m none)).typingArgs = some [] := by
    show some (initSubclassArgs ((List.replicate m (none : Option Dict)).findSome? id)
        (List.replicate m none)) = some []
    rw [findSome_id_replicate_none m]
    unfold initSubclassArgs
    rw [ancestorMerge_replicate_none]
    rfl
  have key : ∀ (c : ClassObj) (d : Dict), c.typingArgs = some d →
      ∀ s, typingArgGet acc c ≠ .error (.noTypingAttr s) := by
    intro c d hd s hcon
    cases hg : dictGet d acc.type_argument with
    | none => simp [typingArgGet, hd, hg] at hcon
    | some t => simp [typingArgGet, hd, hg] at hcon
  refine ⟨rfl, ?_, hempty, ?_⟩
  · exact key (mkSubclass n g y ps body bases) _ rfl
  · unfold typingArgGet
    rw [hempty]
    rfl
